import Mathlib

/-!
Verification of the rna release-notes data model against its design
specification.

The development shallowly embeds the two source modules that carry the
algorithmic content of the repository:

* `models.py` — `Release.major_version`, `Release.equivalent_release_for_product`,
  `Release.notes`, `Note.is_known_issue_for`;
* `admin.py` — the per-release body of `ReleaseAdmin.copy_releases`.

Machine strings are Lean `String`s manipulated at the character-list level;
Python's `str.split(sep)`, `str.startswith`, `str.endswith` and string
comparison are reimplemented below so that their behaviour is inductively
provable.  Python's `sorted(xs, key=k)` / `sorted(xs, key=k, reverse=True)`
(a stable sort, also stable under `reverse=True`) is modelled by a stable
insertion sort parameterised by a boolean `le` relation.
-/

namespace Rna

/-- Python `str.split(sep)` for a one-character separator, at the
character-list level.  `splitOnChar sep [] = [[]]`, matching
`''.split(sep) == ['']`. -/
def splitOnChar (sep : Char) : List Char → List (List Char)
  | [] => [[]]
  | a :: as =>
    if a = sep then [] :: splitOnChar sep as
    else
      match splitOnChar sep as with
      | [] => [[a]]
      | g :: gs => (a :: g) :: gs

/-- Does the character list `l` start with `p`?  (`listStarts l p` is Python
`l.startswith(p)` at the character level.) -/
def listStarts : List Char → List Char → Bool
  | _, [] => true
  | [], _ :: _ => false
  | a :: as, b :: bs => a == b && listStarts as bs

/-- Python `s.startswith(p)`. -/
def strStarts (s p : String) : Bool := listStarts s.data p.data

/-- Python `s.endswith(p)` (Django `__endswith`). -/
def strEnds (s p : String) : Bool := listStarts s.data.reverse p.data.reverse

/-- Python lexicographic `<=` on character lists (code-point order). -/
def charsLe : List Char → List Char → Bool
  | [], _ => true
  | _ :: _, [] => false
  | a :: as, b :: bs => if a < b then true else if b < a then false else charsLe as bs

/-- Python string `<=` (used by `sorted` on string keys). -/
def strLe (a b : String) : Bool := charsLe a.data b.data

/-- Boolean `<=` on `Nat` keys. -/
def natLe (a b : Nat) : Bool := decide (a ≤ b)

/-- Boolean `<=` on `Int` keys. -/
def intLe (a b : Int) : Bool := decide (a ≤ b)

/-- Boolean `<=` on `Bool` keys (`false < true`, as in Python). -/
def boolLe (a b : Bool) : Bool := !a || b

/-- Insert `a` in front of the first element `b` of `l` with `le a b`. -/
def insertLe (le : α → α → Bool) (a : α) : List α → List α
  | [] => [a]
  | b :: bs => if le a b then a :: b :: bs else b :: insertLe le a bs

/-- Stable insertion sort: an element placed earlier in the input is kept
in front of later elements that compare equal to it. -/
def stableSort (le : α → α → Bool) : List α → List α
  | [] => []
  | a :: as => insertLe le a (stableSort le as)

/-- Python `sorted(l, key=k)` for a key order given by the boolean `kle`. -/
def sortAscBy (k : α → κ) (kle : κ → κ → Bool) (l : List α) : List α :=
  stableSort (fun a b => kle (k a) (k b)) l

/-- Python `sorted(l, key=k, reverse=True)`: descending by key, elements
with equal keys staying in input order. -/
def sortDescBy (k : α → κ) (kle : κ → κ → Bool) (l : List α) : List α :=
  stableSort (fun a b => kle (k b) (k a)) l

/-- The `Release` model of `models.py` (scalar fields; timestamps are
abstract `Nat` instants, the primary key is `id`). -/
structure Release where
  id : Nat
  product : String
  channel : String
  version : String
  release_date : Nat
  text : String
  is_public : Bool
  bug_list : String
  bug_search_url : String
  system_requirements : String
  created : Nat
  modified : Nat
deriving DecidableEq, Repr

/-- The `Note` model of `models.py`.  `fixed_in_release` holds the primary
key of the fixing release when present (Django model equality is by primary
key); the many-to-many `releases` link lives outside the row. -/
structure Note where
  id : Nat
  bug : Option Int
  note : String
  is_known_issue : Bool
  fixed_in_release : Option Nat
  tag : String
  sort_num : Int
  is_public : Bool
  image : String
  created : Nat
  modified : Nat
deriving DecidableEq, Repr

/-- `Note.TAGS` from `models.py`. -/
def Note.TAGS : List String :=
  ["New", "Changed", "HTML5", "Feature", "Language", "Developer", "Fixed"]

/-- `tag_index.get(tag, 0)` where `tag_index = dict((tag, i) for i, tag in
enumerate(Note.TAGS))`: the position of `t` in `Note.TAGS`, `0` when absent. -/
def tag_index (t : String) : Nat :=
  (Note.TAGS.findIdx? (fun x => x == t)).getD 0

/-- `Note.is_known_issue_for`: `self.is_known_issue and
self.fixed_in_release != release` (model inequality is by primary key). -/
def Note.is_known_issue_for (self : Note) (release : Release) : Bool :=
  self.is_known_issue && !(self.fixed_in_release == some release.id)

/-- `Release.major_version`: `self.version.split('.', 1)[0]` — the prefix of
`version` before the first dot, or the whole string when there is no dot. -/
def Release.major_version (self : Release) : String :=
  String.mk ((splitOnChar '.' self.version.data).headD [])

/-- Key of the first `sorted` pass of `equivalent_release_for_product`:
`len(r.version.split('.'))`. -/
def segment_count (r : Release) : Nat :=
  (splitOnChar '.' r.version.data).length

/-- Key of the second `sorted` pass of `equivalent_release_for_product`:
`r.version.split('.')[1]`.  In Python the indexing would raise on a
one-segment version; every candidate's version provably has at least two
segments (see `splitOnChar_candidate_segments`), so the unreachable case is
given the bottom element `""` of the string order. -/
def minor_segment (r : Release) : String :=
  String.mk ((splitOnChar '.' r.version.data).getD 1 [])

/-- The candidate queryset of `Release.equivalent_release_for_product`:
`self._default_manager.filter(version__startswith=self.major_version() + '.',
channel=self.channel, product=product).order_by('-version')`, then
`.filter(is_public=True)` unless `settings.DEV`.  The store is the list
`all_releases` in storage order. -/
def Release.equivalent_candidates (self : Release) (all_releases : List Release)
    (product : String) (dev : Bool) : List Release :=
  let releases := sortDescBy (fun r : Release => r.version) strLe
    (all_releases.filter (fun r =>
      strStarts r.version (self.major_version ++ ".") &&
      r.channel == self.channel && r.product == product))
  if !dev then releases.filter (fun r => r.is_public) else releases

/-- `Release.equivalent_release_for_product` from `models.py`: two further
stable sorts over the candidates (descending segment count, then descending
minor segment) and the first element, `none` when no candidate remains. -/
def Release.equivalent_release_for_product (self : Release)
    (all_releases : List Release) (product : String) (dev : Bool) : Option Release :=
  let releases := self.equivalent_candidates all_releases product dev
  if releases.isEmpty then none
  else (sortDescBy minor_segment strLe (sortDescBy segment_count natLe releases)).head?

/-- Key of the final `sorted` pass of `Release.notes`:
`n.tag == 'Fixed' and n.note.startswith(self.version)`. -/
def dot_fix_key (self : Release) (n : Note) : Bool :=
  (n.tag == "Fixed") && strStarts n.note self.version

/-- `Release.notes` from `models.py`.  `note_set` is the list of notes
linked to `self`, in storage order; `order_by('-sort_num')` is the stable
descending sort on `sort_num`. -/
def Release.notes (self : Release) (note_set : List Note) (public_only : Bool) :
    List Note × List Note :=
  let notes0 := sortDescBy (fun n : Note => n.sort_num) intLe note_set
  let notes1 := if public_only then notes0.filter (fun n => n.is_public) else notes0
  let known_issues := notes1.filter (fun n => n.is_known_issue_for self)
  let new_features :=
    sortDescBy (fun n => dot_fix_key self n) boolLe
      (sortAscBy (fun n : Note => tag_index n.tag) natLe
        (notes1.filter (fun n => !(n.is_known_issue_for self))))
  (new_features, known_issues)

/-- Claim-side description of `Release.notes`, written after the
specification: base order descending `sort_num` (restricted to public notes
when `public_only`); known issues are exactly the notes with
`is_known_issue` true and `fixed_in_release` other than this release, in
base order; the remaining notes get an ascending stable sort on the
tag-priority index followed by a descending stable sort on the dot-fix
boolean. -/
def notes_spec (self : Release) (note_set : List Note) (public_only : Bool) :
    List Note × List Note :=
  let base := sortDescBy (fun n : Note => n.sort_num) intLe note_set
  let base := if public_only then base.filter (fun n => n.is_public) else base
  let known := base.filter (fun n =>
    n.is_known_issue && !(n.fixed_in_release == some self.id))
  let rest := base.filter (fun n =>
    !(n.is_known_issue && !(n.fixed_in_release == some self.id)))
  let pass1 := sortAscBy (fun n : Note => tag_index n.tag) natLe rest
  let pass2 := sortDescBy
    (fun n : Note => (n.tag == "Fixed") && strStarts n.note self.version) boolLe pass1
  (pass2, known)

/-- Claim-side description of `Release.equivalent_release_for_product`,
written after the specification: candidates are the releases of the target
product with this release's channel whose version starts with
`major_version() + "."` (public ones only unless in development mode),
base-ordered descending by version; two successive stable sorts — first
descending by dot-segment count, then descending by the second dot-segment
string — and the head of the final order, absent when no candidate remains. -/
def equivalent_release_spec (self : Release) (all_releases : List Release)
    (product : String) (dev : Bool) : Option Release :=
  let cands := sortDescBy (fun r : Release => r.version) strLe
    (all_releases.filter (fun r =>
      r.product == product && r.channel == self.channel &&
      strStarts r.version (self.major_version ++ ".")))
  let cands := if dev then cands else cands.filter (fun r => r.is_public)
  (sortDescBy minor_segment strLe (sortDescBy segment_count natLe cands)).head?

/-- The storage state touched by `ReleaseAdmin.copy_releases`: the release
rows, the note rows, and the many-to-many link table as `(note id, release id)`
pairs. -/
structure RnaDB where
  releases : List Release
  notes : List Note
  links : List (Nat × Nat)
deriving DecidableEq, Repr

/-- `copy_count` of `ReleaseAdmin.copy_releases`:
`self.model.objects.filter(version__endswith=release.version,
product=release.product).count()`. -/
def copy_count_of (db : RnaDB) (release : Release) : Nat :=
  (db.releases.filter (fun r =>
    strEnds r.version release.version && r.product == release.product)).length

/-- `notes = list(release.note_set.all())` (as note ids), read before the
copy is saved. -/
def source_note_ids (db : RnaDB) (release : Release) : List Nat :=
  (db.links.filter (fun l => l.2 == release.id)).map (fun l => l.1)

/-- The release row written by `copy.save()` inside `copy_releases`:
same fields as the source except `id` (fresh), `version` (prefixed
`copy-` or `copy<count>-` by `copy_count`), `is_public = False`, and the
timestamps set by `TimeStampedModel.save` on a fresh row. -/
def copied_release (db : RnaDB) (release : Release) (newId now : Nat) : Release :=
  { release with
    id := newId
    version :=
      if copy_count_of db release > 1 then
        "copy" ++ toString (copy_count_of db release) ++ "-" ++ release.version
      else
        "copy-" ++ release.version
    is_public := false
    created := now
    modified := now }

/-- State after the first storage write of the copy (`copy.save()`), before
any note link has been written. -/
def copy_release_after_save (db : RnaDB) (release : Release) (newId now : Nat) : RnaDB :=
  { db with releases := db.releases ++ [copied_release db release newId now] }

/-- State after the second storage write (`copy.note_set.add(*notes)`). -/
def copy_release_after_add (db : RnaDB) (release : Release) (newId now : Nat) : RnaDB :=
  { copy_release_after_save db release newId now with
    links := db.links ++ (source_note_ids db release).map (fun nid => (nid, newId)) }

/-- The per-release body of `ReleaseAdmin.copy_releases`, after its third
storage write (`copy.note_set.update(modified=datetime.now())`): the notes
linked to the new release get their `modified` stamp refreshed. -/
def copy_release (db : RnaDB) (release : Release) (newId now : Nat) : RnaDB :=
  { copy_release_after_add db release newId now with
    notes := db.notes.map (fun n =>
      if (source_note_ids db release).contains n.id then { n with modified := now } else n) }

/-! ### Helper lemmas about the string and sorting primitives -/

theorem insertLe_perm (le : α → α → Bool) (a : α) (l : List α) :
    (insertLe le a l).Perm (a :: l) := by
  induction l with
  | nil => exact List.Perm.refl _
  | cons b bs ih =>
    unfold insertLe
    cases hle : le a b
    · simpa [hle] using (ih.cons b).trans (List.Perm.swap a b bs)
    · simp [hle]

theorem stableSort_perm (le : α → α → Bool) (l : List α) :
    (stableSort le l).Perm l := by
  induction l with
  | nil => exact List.Perm.refl _
  | cons a as ih => exact (insertLe_perm le a (stableSort le as)).trans (ih.cons a)

theorem mem_stableSort {le : α → α → Bool} {l : List α} {x : α} :
    x ∈ stableSort le l ↔ x ∈ l :=
  (stableSort_perm le l).mem_iff

theorem sortDescBy_perm (k : α → κ) (kle : κ → κ → Bool) (l : List α) :
    (sortDescBy k kle l).Perm l :=
  stableSort_perm _ l

theorem sortAscBy_perm (k : α → κ) (kle : κ → κ → Bool) (l : List α) :
    (sortAscBy k kle l).Perm l :=
  stableSort_perm _ l

theorem mem_sortDescBy {k : α → κ} {kle : κ → κ → Bool} {l : List α} {x : α} :
    x ∈ sortDescBy k kle l ↔ x ∈ l :=
  (sortDescBy_perm k kle l).mem_iff

theorem mem_sortAscBy {k : α → κ} {kle : κ → κ → Bool} {l : List α} {x : α} :
    x ∈ sortAscBy k kle l ↔ x ∈ l :=
  (sortAscBy_perm k kle l).mem_iff

theorem splitOnChar_ne_nil (sep : Char) (l : List Char) : splitOnChar sep l ≠ [] := by
  cases l with
  | nil => simp [splitOnChar]
  | cons a as =>
    unfold splitOnChar
    by_cases h : a = sep
    · simp [h]
    · simp only [h, if_false]
      cases hs : splitOnChar sep as <;> simp

theorem two_le_splitOnChar_length {sep : Char} {l : List Char} (h : sep ∈ l) :
    2 ≤ (splitOnChar sep l).length := by
  induction l with
  | nil => cases h
  | cons a as ih =>
    unfold splitOnChar
    by_cases ha : a = sep
    · simp only [ha, if_true]
      have hne := splitOnChar_ne_nil sep as
      cases hs : splitOnChar sep as with
      | nil => exact absurd hs hne
      | cons g gs => simp
    · have has : sep ∈ as := by
        rcases List.mem_cons.mp h with h1 | h2
        · exact absurd h1.symm ha
        · exact h2
      have h2 := ih has
      simp only [ha, if_false]
      cases hs : splitOnChar sep as with
      | nil => rw [hs] at h2; simp at h2
      | cons g gs => rw [hs] at h2; simpa using h2

theorem splitOnChar_cons_sep (sep : Char) (as : List Char) :
    splitOnChar sep (sep :: as) = [] :: splitOnChar sep as := by
  conv_lhs => unfold splitOnChar
  simp

theorem splitOnChar_cons_ne {sep a : Char} (ha : ¬a = sep) (as : List Char)
    {g : List Char} {gs : List (List Char)} (hs : splitOnChar sep as = g :: gs) :
    splitOnChar sep (a :: as) = (a :: g) :: gs := by
  conv_lhs => unfold splitOnChar
  simp [ha, hs]

theorem splitOnChar_length_one {sep : Char} {l : List Char}
    (h : (splitOnChar sep l).length = 1) : splitOnChar sep l = [l] := by
  induction l with
  | nil => rfl
  | cons a as ih =>
    by_cases ha : a = sep
    · exfalso
      have hne := splitOnChar_ne_nil sep as
      rw [ha, splitOnChar_cons_sep sep as] at h
      cases hs : splitOnChar sep as with
      | nil => exact hne hs
      | cons g gs => rw [hs] at h; simp at h
    · cases hs : splitOnChar sep as with
      | nil => exact absurd hs (splitOnChar_ne_nil sep as)
      | cons g gs =>
        have hsplit : splitOnChar sep (a :: as) = (a :: g) :: gs :=
          splitOnChar_cons_ne ha as hs
        rw [hsplit] at h ⊢
        have hgs : gs = [] := by simpa using h
        subst hgs
        have hgas : splitOnChar sep as = [as] := ih (by rw [hs]; rfl)
        rw [hs] at hgas
        simp only [List.cons.injEq, and_true] at hgas
        simp [hgas]

theorem mem_of_listStarts {l p : List Char} (h : listStarts l p = true) :
    ∀ c ∈ p, c ∈ l := by
  induction p generalizing l with
  | nil => intro c hc; cases hc
  | cons b bs ih =>
    cases l with
    | nil => simp [listStarts] at h
    | cons a as =>
      simp only [listStarts, Bool.and_eq_true] at h
      intro c hc
      rcases List.mem_cons.mp hc with hcb | hcbs
      · rw [hcb, ← eq_of_beq h.1]; exact List.mem_cons_self a as
      · exact List.mem_cons_of_mem a (ih h.2 c hcbs)

theorem listStarts_refl (l : List Char) : listStarts l l = true := by
  induction l with
  | nil => rfl
  | cons a as ih => simp [listStarts, ih]

theorem charsLe_nil (l : List Char) : charsLe [] l = true := by
  cases l <;> rfl

theorem string_mk_data (s : String) : String.mk s.data = s := rfl

theorem bool_and_rot (a b c : Bool) : (a && b && c) = (c && b && a) := by
  cases a <;> cases b <;> cases c <;> rfl

theorem mem_head?_of_sorted {l : List α} {a : α} (h : l.head? = some a) : a ∈ l := by
  cases l with
  | nil => simp at h
  | cons x xs =>
    simp only [List.head?_cons, Option.some.injEq] at h
    rw [← h]
    exact List.mem_cons_self x xs

/-- Membership in the candidate queryset of
`Release.equivalent_release_for_product`: a release is a candidate exactly
when it is stored, satisfies the version-prefix/channel/product filter, and
is public unless the development flag is set. -/
theorem mem_equivalent_candidates {self : Release} {all_releases : List Release}
    {product : String} {dev : Bool} {c : Release} :
    c ∈ Release.equivalent_candidates self all_releases product dev ↔
      c ∈ all_releases ∧
        (strStarts c.version (self.major_version ++ ".") &&
          c.channel == self.channel && c.product == product) = true ∧
        (dev || c.is_public) = true := by
  unfold Release.equivalent_candidates
  cases dev <;> simp [sortDescBy, mem_stableSort, List.mem_filter, and_assoc]

/-! ### Concrete fixtures used by the claim theorems -/

/-- A release with the given key fields and neutral remaining fields. -/
def mkRel (i : Nat) (p c v : String) (pub : Bool) : Release :=
  ⟨i, p, c, v, 0, "", pub, "", "", "", 0, 0⟩

/-- A note with the given key fields and neutral remaining fields. -/
def mkNote (i : Nat) (body tg : String) (ki : Bool) (fir : Option Nat)
    (sn : Int) (pub : Bool) : Note :=
  ⟨i, none, body, ki, fir, tg, sn, pub, "", 0, 0⟩

def fx420 : Release := mkRel 1 "Firefox" "Release" "42.0" true

def fx4201 : Release := mkRel 2 "Firefox" "Release" "42.0.1" true

def fx3303 : Release := mkRel 3 "Firefox" "Release" "33.0.3" true

def fx331 : Release := mkRel 4 "Firefox" "Release" "33.1" true

def r142 : Release := mkRel 5 "Firefox" "Release" "142.0" true

def fx42nodot : Release := mkRel 9 "Firefox" "Release" "42" true

def fxPriv : Release := mkRel 20 "Firefox" "Release" "42.0.2" false

def cpy420 : Release := mkRel 7 "Firefox" "Release" "copy-42.0" false

def nA : Note := mkNote 11 "issue A" "" true (some 2) 4 true

def nB : Note := mkNote 12 "issue B" "Feature" true (some 1) 3 true

def nC : Note := mkNote 13 "changed C" "Changed" false none 2 true

def nD : Note := mkNote 14 "42.0 rendering glitches" "Fixed" false none 10 true

def nPriv : Note := mkNote 15 "private note" "" false none 99 false

def n10 : Note := mkNote 10 "note body" "" false none 0 true

/-- Store with the source release `42.0` and an unrelated release `142.0`
of the same product whose version also ends in `42.0`; no copy exists. -/
def db10 : RnaDB := ⟨[fx420, r142], [], []⟩

/-- Store holding the source release `42.0` and one existing copy. -/
def dbOne : RnaDB := ⟨[fx420, cpy420], [], []⟩

/-- Store with the source release `42.0` carrying one linked note. -/
def dbC7 : RnaDB := ⟨[fx420], [n10], [(10, 1)]⟩

/-! ### Claim theorems -/

/-- Claim C1: `Release.notes(public_only)` returns `(new_features,
known_issues)` where both lists are based on the descending-`sort_num`
order; `known_issues` is exactly the notes with `is_known_issue` true and
`fixed_in_release` different from this release, in base order; and
`new_features` is the remaining notes after an ascending stable sort on the
tag-priority index (blank/unrecognized tags at priority 0) followed by a
descending stable sort on the dot-fix boolean (`tag == "Fixed"` and the
body starting with this release's version).  The second conjunct checks the
specification's worked example: known issue `nA` stays, the
fixed-for-this-release note `nB` moves to new features, and the dot-fix
note `nD` is pulled to the front. -/
theorem claim_c1_notes_matches_description :
    (∀ (self : Release) (note_set : List Note) (public_only : Bool),
        Release.notes self note_set public_only = notes_spec self note_set public_only) ∧
    Release.notes fx420 [nA, nB, nC, nD] false = ([nD, nC, nB], [nA]) := by
  constructor
  · intro self note_set public_only
    rfl
  · decide

/-- Claim C2: `equivalent_release_for_product` picks from the candidate set
(same channel, target product, version starting with `major_version() + "."`)
by a stable sort descending on dot-segment count followed by a stable sort
descending on the second dot-segment string, returning the head of the
final order and `none` when no candidate remains; in particular candidates
`{42.0, 42.0.1}` yield `42.0.1` and `{33.0.3, 33.1}` yield `33.1`. -/
theorem claim_c2_equivalent_release_algorithm :
    (∀ (self : Release) (all_releases : List Release) (product : String) (dev : Bool),
        Release.equivalent_release_for_product self all_releases product dev =
          equivalent_release_spec self all_releases product dev) ∧
    Release.equivalent_release_for_product fx420 [fx420, fx4201] "Firefox" false =
      some fx4201 ∧
    Release.equivalent_release_for_product fx331 [fx3303, fx331] "Firefox" false =
      some fx331 := by
  refine ⟨?_, by decide, by decide⟩
  intro self all_releases product dev
  simp only [Release.equivalent_release_for_product, Release.equivalent_candidates,
    equivalent_release_spec]
  have hfil : all_releases.filter (fun r =>
      strStarts r.version (self.major_version ++ ".") &&
      r.channel == self.channel && r.product == product) =
        all_releases.filter (fun r =>
      r.product == product && r.channel == self.channel &&
      strStarts r.version (self.major_version ++ ".")) :=
    List.filter_congr (fun r _ => bool_and_rot (strStarts r.version
      (self.major_version ++ ".")) (r.channel == self.channel) (r.product == product))
  rw [hfil]
  cases dev
  · simp only [Bool.not_false, if_true]
    generalize (sortDescBy (fun r : Release => r.version) strLe
      (all_releases.filter (fun r =>
        r.product == product && r.channel == self.channel &&
        strStarts r.version (self.major_version ++ ".")))).filter
          (fun r => r.is_public) = L
    cases hL : L.isEmpty
    · simp [hL]
    · rw [List.isEmpty_iff.mp hL]
      rfl
  · simp only [Bool.not_true, if_false]
    generalize sortDescBy (fun r : Release => r.version) strLe
      (all_releases.filter (fun r =>
        r.product == product && r.channel == self.channel &&
        strStarts r.version (self.major_version ++ "."))) = L
    cases hL : L.isEmpty
    · simp [hL]
    · rw [List.isEmpty_iff.mp hL]
      rfl

/-- Claim C4: the minor-segment comparison of
`equivalent_release_for_product` never reaches a missing second segment —
every candidate's version has at least two dot-separated segments, so the
index-1 access is defined; the placeholder used for a missing segment
(`""`) is the bottom of the string order; and `major_version()` on a
version with fewer than two segments returns the whole string. -/
theorem claim_c4_minor_segment_safety :
    (∀ (self : Release) (all_releases : List Release) (product : String) (dev : Bool)
        (c : Release), c ∈ Release.equivalent_candidates self all_releases product dev →
        ((splitOnChar '.' c.version.data)[1]?).isSome = true) ∧
    (∀ s : List Char, charsLe [] s = true) ∧
    (∀ r : Release, (splitOnChar '.' r.version.data).length < 2 →
        r.major_version = r.version) := by
  refine ⟨?_, charsLe_nil, ?_⟩
  · intro self all_releases product dev c hc
    have hpred := (mem_equivalent_candidates.mp hc).2.1
    simp only [Bool.and_eq_true] at hpred
    have hstart : strStarts c.version (self.major_version ++ ".") = true := by tauto
    have hdot : '.' ∈ c.version.data := by
      apply mem_of_listStarts hstart
      rw [String.data_append]
      exact List.mem_append_right _ (by decide)
    have hlen := two_le_splitOnChar_length hdot
    rw [List.getElem?_eq_getElem (by omega)]
    rfl
  · intro r hlen
    have hne := splitOnChar_ne_nil '.' r.version.data
    have h0 : (splitOnChar '.' r.version.data).length ≠ 0 := by
      simpa [List.length_eq_zero] using hne
    have h1 : (splitOnChar '.' r.version.data).length = 1 := by omega
    have h2 := splitOnChar_length_one h1
    unfold Release.major_version
    rw [h2]
    exact string_mk_data r.version

/-- Witness for C4 at concrete inputs: the candidate `42.0.1` (for a
`42.0` release) has a defined second segment, and `major_version` of the
dotless version `42` is the whole string. -/
theorem claim_c4_witness :
    ((splitOnChar '.' fx4201.version.data)[1]?).isSome = true ∧
    fx42nodot.major_version = fx42nodot.version :=
  ⟨claim_c4_minor_segment_safety.1 fx420 [fx420, fx4201] "Firefox" false fx4201 (by decide),
   claim_c4_minor_segment_safety.2.2 fx42nodot (by decide)⟩

/-- Claim C5: with the development flag unset,
`equivalent_release_for_product` only ever returns a public release; with
the flag set, the candidate set is exactly the filtered store with no
`is_public` restriction. -/
theorem claim_c5_dev_flag_visibility :
    (∀ (self : Release) (all_releases : List Release) (product : String) (r : Release),
        Release.equivalent_release_for_product self all_releases product false = some r →
        r.is_public = true) ∧
    (∀ (self : Release) (all_releases : List Release) (product : String) (r : Release),
        r ∈ Release.equivalent_candidates self all_releases product true ↔
          r ∈ all_releases ∧
            (strStarts r.version (self.major_version ++ ".") &&
              r.channel == self.channel && r.product == product) = true) := by
  constructor
  · intro self all_releases product r h
    simp only [Release.equivalent_release_for_product] at h
    split at h
    · exact absurd h (by simp)
    · have h1 : r ∈ Release.equivalent_candidates self all_releases product false := by
        have hm := mem_head?_of_sorted h
        exact mem_sortDescBy.mp (mem_sortDescBy.mp hm)
      have h2 := (mem_equivalent_candidates.mp h1).2.2
      simpa using h2
  · intro self all_releases product r
    rw [mem_equivalent_candidates]
    simp

/-- Witness for C5 at a concrete input: with a non-public `42.0.2`
candidate present and the flag unset, the function returns the public
`42.0.1`, which is indeed public. -/
theorem claim_c5_witness : fx4201.is_public = true :=
  claim_c5_dev_flag_visibility.1 fx420 [fx420, fx4201, fxPriv] "Firefox" fx4201 (by decide)

/-- Claim C6: with `public_only = true`, a non-public note appears in
neither of the two lists returned by `Release.notes`. -/
theorem claim_c6_public_only_excludes_nonpublic :
    ∀ (self : Release) (note_set : List Note) (n : Note), n.is_public = false →
      n ∉ (Release.notes self note_set true).1 ∧ n ∉ (Release.notes self note_set true).2 := by
  intro self note_set n hn
  have hbase : n ∉ (sortDescBy (fun x : Note => x.sort_num) intLe note_set).filter
      (fun x => x.is_public) := by
    intro hmem
    have hpub := (List.mem_filter.mp hmem).2
    rw [hn] at hpub
    exact absurd hpub (by simp)
  constructor
  · intro hmem
    have hmem' : n ∈ sortDescBy (fun x => dot_fix_key self x) boolLe
        (sortAscBy (fun x : Note => tag_index x.tag) natLe
          (((sortDescBy (fun x : Note => x.sort_num) intLe note_set).filter
              (fun x => x.is_public)).filter
            (fun x => !(x.is_known_issue_for self)))) := hmem
    exact hbase (List.mem_filter.mp (mem_sortAscBy.mp (mem_sortDescBy.mp hmem'))).1
  · intro hmem
    have hmem' : n ∈ ((sortDescBy (fun x : Note => x.sort_num) intLe note_set).filter
        (fun x => x.is_public)).filter (fun x => x.is_known_issue_for self) := hmem
    exact hbase (List.mem_filter.mp hmem').1

/-- Witness for C6 at a concrete input: the non-public note `nPriv` is in
neither list of `notes(public_only=True)` for the `42.0` release. -/
theorem claim_c6_witness :
    nPriv ∉ (Release.notes fx420 [nA, nPriv, nC, nD] true).1 ∧
    nPriv ∉ (Release.notes fx420 [nA, nPriv, nC, nD] true).2 :=
  claim_c6_public_only_excludes_nonpublic fx420 [nA, nPriv, nC, nD] nPriv rfl

theorem notes_concat_perm_aux (self : Release) (B : List Note) :
    ((sortDescBy (fun x => dot_fix_key self x) boolLe
        (sortAscBy (fun x : Note => tag_index x.tag) natLe
          (B.filter (fun x => !(x.is_known_issue_for self))))) ++
      B.filter (fun x => x.is_known_issue_for self)).Perm B := by
  have hnf : (sortDescBy (fun x => dot_fix_key self x) boolLe
      (sortAscBy (fun x : Note => tag_index x.tag) natLe
        (B.filter (fun x => !(x.is_known_issue_for self))))).Perm
      (B.filter (fun x => !(x.is_known_issue_for self))) :=
    (sortDescBy_perm _ _ _).trans (sortAscBy_perm _ _ _)
  refine (hnf.append_right _).trans ?_
  exact List.perm_append_comm.trans
    (List.filter_append_perm (fun x => x.is_known_issue_for self) B)

theorem notes_lists_disjoint_aux (self : Release) (B : List Note) (n : Note)
    (h1 : n ∈ sortDescBy (fun x => dot_fix_key self x) boolLe
      (sortAscBy (fun x : Note => tag_index x.tag) natLe
        (B.filter (fun x => !(x.is_known_issue_for self)))))
    (h2 : n ∈ B.filter (fun x => x.is_known_issue_for self)) : False := by
  have hk := (List.mem_filter.mp h2).2
  have hnk := (List.mem_filter.mp (mem_sortAscBy.mp (mem_sortDescBy.mp h1))).2
  rw [hk] at hnk
  exact absurd hnk (by simp)

/-- Claim C8: the note projection is a deterministic pure derivation — two
invocations of `Release.notes` over the same linked notes and the same
`public_only` argument return identical ordered pairs. -/
theorem claim_c8_notes_deterministic :
    ∀ (self : Release) (ns1 ns2 : List Note) (public_only : Bool), ns1 = ns2 →
      Release.notes self ns1 public_only = Release.notes self ns2 public_only := by
  intro self ns1 ns2 public_only h
  rw [h]

/-- Witness for C8 at a concrete input: two identical invocations agree. -/
theorem claim_c8_witness :
    Release.notes fx420 [nA, nB, nC, nD] false =
      Release.notes fx420 [nA, nB, nC, nD] false :=
  claim_c8_notes_deterministic fx420 [nA, nB, nC, nD] [nA, nB, nC, nD] false rfl

/-- Claim C9: the two lists returned by `Release.notes` are disjoint and
their concatenation is a permutation of the linked notes (of the public
linked notes when `public_only` is set): every relevant note lands in
exactly one list and nothing else appears. -/
theorem claim_c9_partition :
    ∀ (self : Release) (note_set : List Note) (public_only : Bool),
      ((Release.notes self note_set public_only).1 ++
          (Release.notes self note_set public_only).2).Perm
        (if public_only then note_set.filter (fun n => n.is_public) else note_set) ∧
      (∀ n : Note, n ∈ (Release.notes self note_set public_only).1 →
        n ∉ (Release.notes self note_set public_only).2) := by
  intro self note_set public_only
  cases public_only
  · constructor
    · refine (notes_concat_perm_aux self
        (sortDescBy (fun x : Note => x.sort_num) intLe note_set)).trans ?_
      simpa using sortDescBy_perm (fun x : Note => x.sort_num) intLe note_set
    · intro n h1 h2
      exact notes_lists_disjoint_aux self
        (sortDescBy (fun x : Note => x.sort_num) intLe note_set) n h1 h2
  · constructor
    · refine (notes_concat_perm_aux self
        ((sortDescBy (fun x : Note => x.sort_num) intLe note_set).filter
          (fun x => x.is_public))).trans ?_
      simpa using (sortDescBy_perm (fun x : Note => x.sort_num) intLe note_set).filter
        (fun x : Note => x.is_public)
    · intro n h1 h2
      exact notes_lists_disjoint_aux self
        ((sortDescBy (fun x : Note => x.sort_num) intLe note_set).filter
          (fun x => x.is_public)) n h1 h2

/-- Witness for C9 at a concrete input: for the `42.0` release with linked
notes `[nA, nD]`, the concatenation of the two lists is a permutation of
the input and the new-feature note `nD` is not a known issue. -/
theorem claim_c9_witness :
    ((Release.notes fx420 [nA, nD] false).1 ++
        (Release.notes fx420 [nA, nD] false).2).Perm
      (if false then ([nA, nD].filter (fun n => n.is_public)) else [nA, nD]) ∧
    nD ∉ (Release.notes fx420 [nA, nD] false).2 := by
  have h := claim_c9_partition fx420 [nA, nD] false
  exact ⟨h.1, h.2 nD (by decide)⟩

/-- Counterexample to claim C3 as stated: for product Firefox with stored
releases `42.0` and `142.0` and no existing copy (no stored version starts
with `copy`), copying `42.0` yields version `copy2-42.0`, not the claimed
`copy-42.0` — the suffix count also matches the unrelated `142.0`. -/
theorem claim_c3_counterexample :
    db10.releases.all (fun x => !(strStarts x.version "copy")) = true ∧
    (copy_release db10 fx420 6 100).releases.map (fun x => x.version) =
      ["42.0", "142.0", "copy2-42.0"] ∧
    "copy2-42.0" ≠ "copy-42.0" := by decide

/-- Claim C3 as amended: the copy of a release gets version `copy-V` when
the source is the only release of that product whose version ends with `V`
(suffix count 1) and `copyN-V` (`N` the suffix count) when the count
exceeds 1; the copy always starts non-public, its note links are exactly
the source's note links, and the linked notes' `modified` stamps are
refreshed. -/
theorem claim_c3_copy_release_amended (db : RnaDB) (r : Release) (newId now : Nat)
    (hfresh : ∀ l ∈ db.links, l.2 ≠ newId) :
    copied_release db r newId now ∈ (copy_release db r newId now).releases ∧
    (copied_release db r newId now).is_public = false ∧
    (copy_count_of db r = 1 →
      (copied_release db r newId now).version = "copy-" ++ r.version) ∧
    (1 < copy_count_of db r →
      (copied_release db r newId now).version =
        "copy" ++ toString (copy_count_of db r) ++ "-" ++ r.version) ∧
    (∀ nid : Nat, (nid, newId) ∈ (copy_release db r newId now).links ↔
      (nid, r.id) ∈ db.links) ∧
    (∀ n ∈ db.notes, n.id ∈ source_note_ids db r →
      { n with modified := now } ∈ (copy_release db r newId now).notes) := by
  refine ⟨?_, rfl, ?_, ?_, ?_, ?_⟩
  · show copied_release db r newId now ∈ db.releases ++ [copied_release db r newId now]
    exact List.mem_append_right _ (List.mem_cons_self _ _)
  · intro h1
    simp [copied_release, h1]
  · intro h1
    simp [copied_release, h1]
  · intro nid
    show (nid, newId) ∈ db.links ++ (source_note_ids db r).map (fun m => (m, newId)) ↔
      (nid, r.id) ∈ db.links
    constructor
    · intro h
      rcases List.mem_append.mp h with h | h
      · exact absurd rfl (hfresh _ h)
      · rcases List.mem_map.mp h with ⟨m, hm, heq⟩
        simp only [Prod.mk.injEq] at heq
        unfold source_note_ids at hm
        rcases List.mem_map.mp hm with ⟨l, hl, hl1⟩
        have hl2 := List.mem_filter.mp hl
        have hse : l.2 = r.id := by simpa using hl2.2
        have hleq : l = (nid, r.id) := by
          have : l = (l.1, l.2) := rfl
          rw [this, hse, hl1, heq.1]
        rw [← hleq]
        exact hl2.1
    · intro h
      apply List.mem_append_right
      apply List.mem_map.mpr
      refine ⟨nid, ?_, rfl⟩
      unfold source_note_ids
      apply List.mem_map.mpr
      refine ⟨(nid, r.id), ?_, rfl⟩
      exact List.mem_filter.mpr ⟨h, by simp⟩
  · intro n hn hid
    show { n with modified := now } ∈ db.notes.map (fun x =>
      if (source_note_ids db r).contains x.id then { x with modified := now } else x)
    have heval : (fun x : Note =>
        if (source_note_ids db r).contains x.id then { x with modified := now } else x) n =
        { n with modified := now } := by
      have hc : (source_note_ids db r).contains n.id = true :=
        List.elem_eq_true_of_mem hid
      show (if (source_note_ids db r).contains n.id = true then
          { n with modified := now } else n) = { n with modified := now }
      exact if_pos hc
    rw [← heval]
    exact List.mem_map_of_mem _ hn

/-- Witness for the amended C3 at a concrete input: with the source `42.0`
and one existing copy stored, the copy lands in the store and is versioned
`copy2-42.0` (suffix count 2). -/
theorem claim_c3_witness :
    copied_release dbOne fx420 8 100 ∈ (copy_release dbOne fx420 8 100).releases ∧
    (copied_release dbOne fx420 8 100).version = "copy2-42.0" := by
  have h := claim_c3_copy_release_amended dbOne fx420 8 100 (by decide)
  refine ⟨h.1, ?_⟩
  have h2 := h.2.2.2.1 (by decide)
  rw [h2]
  decide

/-- Claim C7 (the intended atomicity, violated by the code): the copy is
written in three separate storage writes; after the first commit
(`copy.save()`) and before `note_set.add`, the store already contains the
new release while it has no note association, although the source has one —
a storage failure at that point leaves exactly the partial state the
specification forbids. -/
theorem claim_c7_partial_copy_state :
    (copy_release_after_save dbC7 fx420 2 100).releases =
      [fx420, copied_release dbC7 fx420 2 100] ∧
    (copied_release dbC7 fx420 2 100).version = "copy-42.0" ∧
    (copy_release_after_save dbC7 fx420 2 100).links.all (fun l => !(l.2 == 2)) = true ∧
    source_note_ids dbC7 fx420 = [10] := by decide

/-- Claim C10: the copy-prefix count is computed by suffix matching over
same-product releases and always matches the source itself; concretely,
with stored releases `42.0` and `142.0` and no prior copy, the count is 2
and copying `42.0` produces `copy2-42.0` rather than `copy-42.0`. -/
theorem claim_c10_copy_count_suffix_matching :
    (∀ (db : RnaDB) (r : Release), r ∈ db.releases →
        r ∈ db.releases.filter (fun x =>
          strEnds x.version r.version && x.product == r.product)) ∧
    db10.releases.all (fun x => !(strStarts x.version "copy")) = true ∧
    copy_count_of db10 fx420 = 2 ∧
    (copied_release db10 fx420 6 100).version = "copy2-42.0" := by
  refine ⟨?_, by decide, by decide, by decide⟩
  intro db r hr
  refine List.mem_filter.mpr ⟨hr, ?_⟩
  simp [strEnds, listStarts_refl]

/-- Witness for C10 at a concrete input: the source release `42.0` matches
its own suffix filter in the `{42.0, 142.0}` store. -/
theorem claim_c10_witness :
    fx420 ∈ db10.releases.filter (fun x =>
      strEnds x.version fx420.version && x.product == fx420.product) :=
  claim_c10_copy_count_suffix_matching.1 db10 fx420 (by decide)

end Rna
